import Mathlib

set_option maxHeartbeats 1000000

/-!
Shallow embedding of the collaborative-issues client (`src/main.rs`).

The program is a thin command-line client over two external libraries: the
automerge CRDT engine (Backend / Frontend / Change) and the librad
collaborative-object store.  The command arms, `evaluate_history`,
`initial_doc`, and the `Issue` projection are translated from the source;
the automerge and storage collaborators, whose code is not part of this
repository, are modelled from the specification (sections 3, 4.1 - 4.4
and 6) and are marked `Modelled from the spec:` below.
-/

/-- Modelled from the spec: an automerge actor identifier (the per-frontend
author id); opaque in the source, represented here by a natural number. -/
abbrev Actor := Nat

/-- Modelled from the spec: the key of the backend op-set, a logical
(actor, per-actor monotonic sequence number) pair identifying one Change. -/
structure ChangeId where
  actor : Actor
  seq : Nat
  deriving DecidableEq, Repr

/-- Modelled from the spec: primitive document values (strings, numbers,
booleans, null). -/
inductive Primitive where
  | str (s : String)
  | int (n : Int)
  | boolean (b : Bool)
  | null
  deriving DecidableEq, Repr

/-- Modelled from the spec: the materialized value tree, a nested object of
maps, lists and primitives. -/
inductive Value where
  | prim (p : Primitive)
  | map (entries : List (String × Value))
  | list (elems : List Value)

/-- Modelled from the spec: the primitive operations a change records.  The
program authors exactly two operation shapes: setting the root value
(`LocalChange::set(Path::root(), v)` in `initial_doc`) and inserting into a
list held under a root key at a given index
(`LocalChange::insert(Path::root().key(k).index(i), v)` in the add-comment
edit). -/
inductive Op where
  | set_root (v : Value)
  | insert (key : String) (idx : Nat) (v : Value)

/-- Modelled from the spec: the smallest CRDT operation unit.  Holds the
operations to apply, the (actor, seq) pair used to detect duplicates, and the
causal dependency ids of the changes it was authored against. -/
structure Change where
  actor : Actor
  seq : Nat
  deps : List ChangeId
  ops : List Op

/-- The (actor, seq) key of a change. -/
def Change.cid (c : Change) : ChangeId := ⟨c.actor, c.seq⟩

/-- Modelled from the spec: decode failure of the change codec (truncated
input, unknown operation tags, fields outside valid range). -/
inductive DecodeError where
  | invalid
  deriving DecidableEq, Repr

/-- Modelled from the spec: the transportable byte representation of one
change (section 4.1).  The codec itself is external to `src/`; we model a
byte blob abstractly as either a well-formed encoding of a change or a
malformed blob on which decoding fails. -/
inductive EncodedChange where
  | valid (c : Change)
  | malformed (blob : Nat)

/-- Modelled from the spec: `encode(change) -> bytes` (section 4.1). -/
def encode_change (c : Change) : EncodedChange := .valid c

/-- Modelled from the spec: `decode(bytes) -> Result<Change, DecodeError>`
(section 4.1); `Change::from_bytes` at the call site in `evaluate_history`. -/
def decode_change : EncodedChange → Except DecodeError Change
  | .valid c => .ok c
  | .malformed _ => .error .invalid

/-- Lookup of a key in a map value's entry list. -/
def map_get : List (String × Value) → String → Option Value
  | [], _ => none
  | (k, v) :: rest, key => if k = key then some v else map_get rest key

/-- Replace the binding of a key in a map value's entry list (append if
absent). -/
def map_set : List (String × Value) → String → Value → List (String × Value)
  | [], key, v => [(key, v)]
  | (k, w) :: rest, key, v =>
    if k = key then (k, v) :: rest else (k, w) :: map_set rest key v

/-- Insert an element into a list value at a given index. -/
def insert_at (xs : List Value) (i : Nat) (v : Value) : List Value :=
  xs.take i ++ v :: xs.drop i

/-- Modelled from the spec: applying one primitive operation to the
materialized value tree; `none` marks a structurally invalid operation (a
list operation referencing a non-existent list), which surfaces as
`MergeError::Corrupt`. -/
def apply_op (doc : Value) : Op → Option Value
  | .set_root v => some v
  | .insert key idx v =>
    match doc with
    | .map m =>
      match map_get m key with
      | some (.list xs) =>
        if idx ≤ xs.length then
          some (.map (map_set m key (.list (insert_at xs idx v))))
        else none
      | _ => none
    | _ => none

/-- Modelled from the spec: merge failures of `apply_changes`
(section 4.2). -/
inductive MergeError where
  | MissingDependency
  | Corrupt
  deriving DecidableEq, Repr

/-- Modelled from the spec: Backend state, an internal op-set keyed by
(actor, seq) kept in application order, plus the derived materialized value
tree (section 3). -/
structure Backend where
  changes : List Change
  doc : Value

/-- Modelled from the spec: `Backend::new()`, empty op-set, empty
materialized value. -/
def Backend.new : Backend := ⟨[], .map []⟩

/-- The (actor, seq) keys present in the backend's op-set. -/
def Backend.ids (b : Backend) : List ChangeId := b.changes.map Change.cid

/-- Modelled from the spec: folding a single change into the backend
(section 4.2).  A change whose declared dependencies are not yet present in
the op-set is rejected with `MergeError::MissingDependency`; a change already
present (duplicate actor/seq) is a no-op; otherwise its operations are folded
into the materialized value, failing with `MergeError::Corrupt` if an
operation is structurally invalid.  On any error the backend is unchanged. -/
def apply_one (b : Backend) (c : Change) : Except MergeError Backend :=
  if _h : ∀ d ∈ c.deps, d ∈ b.ids then
    if _h2 : c.cid ∈ b.ids then .ok b
    else
      match c.ops.foldlM apply_op b.doc with
      | some doc2 => .ok ⟨b.changes ++ [c], doc2⟩
      | none => .error .Corrupt
  else .error .MissingDependency

/-- Modelled from the spec: `Backend::apply_changes` over an ordered batch of
changes (section 4.2); the source always passes a singleton batch. -/
def apply_changes (b : Backend) (cs : List Change) : Except MergeError Backend :=
  cs.foldlM apply_one b

/-- The `backend.apply_changes(vec![c]).ok()` pattern of `evaluate_history`:
apply, and keep the previous backend when the merge fails. -/
def try_apply (b : Backend) (cs : List Change) : Backend :=
  match apply_changes b cs with
  | .ok b2 => b2
  | .error _ => b

/-- Modelled from the spec: the causal frontier of an op-set — the changes no
other change in the set depends on (section 4.3, "the set of (actor, seq)
pairs visible in the current snapshot's causal frontier"). -/
def heads (cs : List Change) : List ChangeId :=
  (cs.filter (fun c => cs.all (fun d => decide (c.cid ∉ d.deps)))).map Change.cid

/-- Modelled from the spec: a patch describing the value tree resulting from
the applied changes, consumed to update a Frontend's local snapshot
(section 3); carries the materialized value and the causal frontier. -/
structure Patch where
  doc : Value
  heads : List ChangeId

/-- Error type of the patch production / patch application steps of
`evaluate_history` (`anyhow` in the source). -/
inductive EvalError where
  | patch_failed
  deriving DecidableEq, Repr

/-- Modelled from the spec: `Backend::get_patch`; the materialized value is a
pure function of the op-set and materialization never fails
(section 4.2). -/
def get_patch (b : Backend) : Except EvalError Patch :=
  .ok ⟨b.doc, heads b.changes⟩

/-- Modelled from the spec: Frontend state, a mutable projection of the
materialized tree plus the local actor's next sequence number and the causal
heads it has observed (sections 3 and 4.3). -/
structure Frontend where
  actor : Actor
  seq : Nat
  doc : Value
  front : List ChangeId

/-- Modelled from the spec: `Frontend::new()`, empty local snapshot,
seq = 0; the actor id (random in automerge) is a parameter. -/
def Frontend.new (a : Actor) : Frontend := ⟨a, 0, .map [], []⟩

/-- Modelled from the spec: `Frontend::apply_patch`, updating the local
snapshot to reflect a backend-side patch (section 4.3). -/
def apply_patch (f : Frontend) (p : Patch) : Except EvalError Frontend :=
  .ok { f with doc := p.doc, front := p.heads }

/-- Modelled from the spec: `Frontend::change` (section 4.3).  The edit
closure records a sequence of primitive operations against the local
snapshot; when it records at least one, exactly one Change is produced,
stamped with the local actor id and the next unused sequence number, with
dependencies set to the snapshot's causal heads.  When the closure records
no operations the call yields no change (the `Option<Change>` of the source,
unwrapped by both call sites). -/
def Frontend.change (f : Frontend) (edit : Value → List Op) : Frontend × Option Change :=
  match edit f.doc with
  | [] => (f, none)
  | op :: rest =>
    ({ f with seq := f.seq + 1 }, some ⟨f.actor, f.seq + 1, f.front, op :: rest⟩)

/-- `EntryContents` of the source: a tagged variant holding one change
format's raw bytes; today only the automerge variant exists. -/
inductive EntryContents where
  | automerge (data : EncodedChange)

/-- An immutable node of the causal DAG carrying one opaque change payload. -/
structure Entry where
  contents : EntryContents

/-- Modelled from the spec: `History::traverse` visits every reachable entry
in a causally-consistent topological order (sections 4.4 and 6); we model a
history as the entry sequence in that visitation order. -/
abbrev History := List Entry

/-- Stable identifier of a collaborative object. -/
abbrev ObjectId := Nat

/-- Observable effects of a command arm: a diagnostic line (`eprintln`), an
output line (`println`), the printed JSON projection of a document, and a
store update committing one new entry to an object. -/
inductive Step where
  | log (s : String)
  | out (s : String)
  | out_doc (v : Value)
  | commit (oid : ObjectId) (e : Entry)

/-- Whether a step is a store commit. -/
def Step.is_commit : Step → Bool
  | .commit _ _ => true
  | _ => false

/-- One visit of the `history.traverse` closure in `evaluate_history`
(src/main.rs lines 315-330): log "loading entry", decode the entry's
contents, fold a successfully decoded change into the backend discarding
merge errors (`.ok()`), and log decode failures. -/
def step_entry (s : Backend × List Step) (e : Entry) : Backend × List Step :=
  let logs := s.2 ++ [Step.log "loading entry"]
  match e.contents with
  | .automerge data =>
    match decode_change data with
    | .ok c => (try_apply s.1 [c], logs)
    | .error _ => (s.1, logs ++ [Step.log "Error loading a change"])

/-- The traversal fold of `evaluate_history`: thread the backend accumulator
through every entry, collecting the diagnostic log. -/
def eval_fold (h : History) : Backend × List Step :=
  h.foldl step_entry (Backend.new, [])

/-- `evaluate_history` (src/main.rs lines 314-334): fold the history into a
backend, produce its patch, apply it to a fresh frontend, and return the
converged pair; failures of the patch steps propagate. -/
def evaluate_history (a : Actor) (h : History) : Except EvalError (Frontend × Backend) :=
  let b := (eval_fold h).1
  match get_patch b with
  | .error e => .error e
  | .ok p =>
    match apply_patch (Frontend.new a) p with
    | .error e => .error e
    | .ok f => .ok (f, b)

/-- Reading `comments` at the document root:
`d.value_at_path(Path::root().key("comments"))` in the add-comment edit. -/
def value_at_comments (d : Value) : Option Value :=
  match d with
  | .map m => map_get m "comments"
  | _ => none

/-- The add-comment edit closure (src/main.rs lines 171-195): read the
current length of the `comments` list and record one insert of a map holding
the author urn and the comment text at that index; when the document does not
have the expected shape the closure records nothing (after printing "invalid
issue document"). -/
def comment_edit (author_urn : String) (comment : String) (d : Value) : List Op :=
  match value_at_comments d with
  | some (.list xs) =>
    [Op.insert "comments" xs.length
      (.map [("author", .prim (.str author_urn)), ("comment", .prim (.str comment))])]
  | _ => []

/-- A collaborative object as the store hands it back: its stable id and its
history in traversal order. -/
structure Object where
  id : ObjectId
  history : History

/-- Modelled from the spec: the object store for one (project, type-name)
pair, as the set of objects it can retrieve. -/
abbrev ObjectStore := List Object

/-- Modelled from the spec: `store.retrieve` — `None` when the object id is
unknown to storage. -/
def store_retrieve (store : ObjectStore) (oid : ObjectId) : Option Object :=
  store.find? (fun o => o.id = oid)

/-- Modelled from the spec: `store.update` — append one new entry to the
object's history. -/
def commit_entry (store : ObjectStore) (oid : ObjectId) (e : Entry) : ObjectStore :=
  store.map (fun o => if o.id = oid then { o with history := o.history ++ [e] } else o)

/-- Replay a trace of command effects against the store: only commit steps
change persisted state. -/
def apply_trace (store : ObjectStore) : List Step → ObjectStore
  | [] => store
  | .commit oid e :: rest => apply_trace (commit_entry store oid e) rest
  | _ :: rest => apply_trace store rest

/-- Outcome of one command-arm execution: the effects it performed, and
whether it ran to completion or died in a panicking unwrap. -/
inductive RunResult where
  | completed (trace : List Step)
  | panicked (trace : List Step)

/-- The effects a run performed (up to the point of a panic, if any). -/
def RunResult.trace : RunResult → List Step
  | .completed t => t
  | .panicked t => t

/-- The `Retrieve` command arm (src/main.rs lines 134-155): retrieve the
object, report "No object found" for an unknown id, evaluate its history and
print the JSON projection of the converged document, aborting on an
evaluation error. -/
def retrieve_run (store : ObjectStore) (a : Actor) (oid : ObjectId) : RunResult :=
  match store_retrieve store oid with
  | none => .completed [.out "No object found"]
  | some obj =>
    let logs := (eval_fold obj.history).2
    match evaluate_history a obj.history with
    | .error _ => .completed (logs ++ [.log "error evaluating"])
    | .ok (f, _) => .completed (logs ++ [.out_doc f.doc])

/-- The `AddComment` command arm (src/main.rs lines 156-218): retrieve and
evaluate, re-apply the backend's patch to the frontend, author the
add-comment change, apply it to the backend, and commit it to the store as a
new entry; each `.unwrap()` of the source is a panic branch here. -/
def add_comment_run (store : ObjectStore) (a : Actor) (urn : String)
    (oid : ObjectId) (comment : String) : RunResult :=
  match store_retrieve store oid with
  | none => .completed [.out "No object found"]
  | some obj =>
    let logs := (eval_fold obj.history).2
    match evaluate_history a obj.history with
    | .error _ => .completed (logs ++ [.log "error loading issue"])
    | .ok (f, b) =>
      match get_patch b with
      | .error _ => .panicked logs
      | .ok p =>
        match apply_patch f p with
        | .error _ => .panicked logs
        | .ok f2 =>
          match f2.change (comment_edit urn comment) with
          | (_, none) => .panicked (logs ++ [.log "invalid issue document"])
          | (_, some ch) =>
            match apply_changes b [ch] with
            | .error _ => .panicked logs
            | .ok _ =>
              .completed (logs ++
                [.commit oid ⟨.automerge (encode_change ch)⟩, .out "Update complete"])

/-- The change the `AddComment` arm authors, when its pipeline reaches the
authoring call and the edit records an operation: the "full new Change" whose
encoding is the only payload ever committed by the arm. -/
def add_comment_change (store : ObjectStore) (a : Actor) (urn : String)
    (oid : ObjectId) (comment : String) : Option Change :=
  match store_retrieve store oid with
  | none => none
  | some obj =>
    match evaluate_history a obj.history with
    | .error _ => none
    | .ok (f, b) =>
      match get_patch b with
      | .error _ => none
      | .ok p =>
        match apply_patch f p with
        | .error _ => none
        | .ok f2 => (f2.change (comment_edit urn comment)).2

/-- The root value `initial_doc` sets: the `serde_json::json!` literal of
src/main.rs lines 273-278. -/
def initial_value (author_urn : String) (title : String) (description : String) : Value :=
  .map [("title", .prim (.str title)),
        ("description", .prim (.str description)),
        ("author", .prim (.str author_urn)),
        ("comments", .list [])]

/-- `initial_doc` (src/main.rs lines 269-289): author, on a fresh frontend,
one change that sets the document root to the initial issue value, and encode
it as the entry contents of the object's root entry.  The closure always
records one operation, so the source's unwrap of the produced change cannot
fail; the `malformed` arm mirrors that unreachable unwrap. -/
def initial_doc (a : Actor) (author_urn : String) (title : String)
    (description : String) : EntryContents :=
  .automerge
    (match ((Frontend.new a).change
        (fun _ => [Op.set_root (initial_value author_urn title description)])).2 with
      | some ch => encode_change ch
      | none => .malformed 0)

/-- The initial single-entry history handed to `store.create` by the
`Create` arm. -/
def initial_history (a : Actor) (author_urn : String) (title : String)
    (description : String) : History :=
  [⟨initial_doc a author_urn title description⟩]

/-- The change carried by a single-entry history, when it decodes. -/
def history_root_change (h : History) : Option Change :=
  match h with
  | [⟨.automerge ec⟩] => (decode_change ec).toOption
  | _ => none

/-- The `Comment` view (src/main.rs lines 299-303). -/
structure Comment where
  comment : String
  author : String
  deriving DecidableEq, Repr

/-- The `Issue` view (src/main.rs lines 291-297). -/
structure Issue where
  title : String
  description : String
  comments : List Comment
  author : String
  deriving DecidableEq, Repr

/-- Deserializing a string field. -/
def as_string : Value → Option String
  | .prim (.str s) => some s
  | _ => none

/-- serde deserialization of one comment map: both fields present and
strings. -/
def comment_of_value (v : Value) : Option Comment :=
  match v with
  | .map m =>
    match map_get m "comment", map_get m "author" with
    | some cv, some av =>
      match as_string cv, as_string av with
      | some c, some a => some ⟨c, a⟩
      | _, _ => none
    | _, _ => none
  | _ => none

/-- serde deserialization of the issue view from the materialized document
(the `serde_json::from_value` of the `TryFrom<&History> for Issue` impl). -/
def issue_of_value (v : Value) : Option Issue :=
  match v with
  | .map m =>
    match map_get m "title", map_get m "description",
          map_get m "comments", map_get m "author" with
    | some tv, some dv, some cv, some av =>
      match as_string tv, as_string dv, as_string av with
      | some t, some d, some a =>
        match cv with
        | .list xs =>
          match xs.mapM comment_of_value with
          | some cs => some ⟨t, d, cs, a⟩
          | none => none
        | _ => none
      | _, _, _ => none
    | _, _, _, _ => none
  | _ => none

/-- `TryFrom<&History> for Issue` (src/main.rs lines 305-312): evaluate the
history and deserialize the converged document into the issue view. -/
def issue_try_from (a : Actor) (h : History) : Except String Issue :=
  match evaluate_history a h with
  | .error _ => .error "error evaluating history"
  | .ok (f, _) =>
    match issue_of_value f.doc with
    | some issue => .ok issue
    | none => .error "failed to deserialize"

/-- One output row of the `List` arm: an id-and-title line, or the per-object
"failed to deserialize" line. -/
inductive Row where
  | entry (oid : ObjectId) (title : String)
  | deser_failed (oid : ObjectId)
  deriving DecidableEq, Repr

/-- The row the `List` arm prints for one object (the match of src/main.rs
lines 225-233). -/
def row_of (a : Actor) (o : Object) : Row :=
  match issue_try_from a o.history with
  | .ok issue => .entry o.id issue.title
  | .error _ => .deser_failed o.id

/-- The `List` command arm (src/main.rs lines 219-235), translated loop:
every listed object contributes exactly one row, in order. -/
def list_rows (a : Actor) (objs : List Object) : List Row :=
  objs.foldl
    (fun acc o =>
      acc ++ [match issue_try_from a o.history with
              | .ok issue => Row.entry o.id issue.title
              | .error _ => Row.deser_failed o.id])
    []

/-- Well-formedness of an op-set listed newest-first: every change's
dependencies point at strictly older changes and no (actor, seq) key repeats.
Every backend reachable by `apply_changes` from `Backend.new` satisfies this
for the reverse of its application-ordered op-set. -/
def WFr : List Change → Prop
  | [] => True
  | c :: older =>
    (∀ d ∈ c.deps, ∃ c2 ∈ older, c2.cid = d) ∧
      (∀ c2 ∈ older, c2.cid ≠ c.cid) ∧ WFr older

/-- Causal coverage: the change ids reachable from a root set by following
declared dependency links through the op-set. -/
inductive Covered (cs : List Change) (roots : List ChangeId) : ChangeId → Prop
  | base (x : ChangeId) : x ∈ roots → Covered cs roots x
  | step (c : Change) (x : ChangeId) :
      c ∈ cs → Covered cs roots c.cid → x ∈ c.deps → Covered cs roots x

/-- Whether decoding an entry's contents fails. -/
def decode_fails (e : Entry) : Bool :=
  match e.contents with
  | .automerge data =>
    match decode_change data with
    | .ok _ => false
    | .error _ => true

/-- Whether an entry fails during history evaluation against the given
backend: its contents fail to decode, or its decoded change fails to
merge. -/
def entry_fails (b : Backend) (e : Entry) : Bool :=
  match e.contents with
  | .automerge data =>
    match decode_change data with
    | .error _ => true
    | .ok c =>
      match apply_changes b [c] with
      | .error _ => true
      | .ok _ => false

/-- The change the add-comment edit authors on a well-formed document whose
`comments` list is `xs`: local actor, first sequence number of the fresh
frontend, dependencies at the snapshot's causal frontier, and a single insert
of the two-key comment map at index `xs.length`. -/
def c3_new_change (a : Actor) (urn : String) (cmt : String) (b : Backend)
    (xs : List Value) : Change :=
  ⟨a, 1, heads b.changes,
   [.insert "comments" xs.length
     (.map [("author", .prim (.str urn)), ("comment", .prim (.str cmt))])]⟩

/-- Demo entry whose contents are a malformed blob. -/
def c1_demo_bad : Entry := ⟨.automerge (.malformed 7)⟩

/-- Demo entry carrying a well-formed root-setting change. -/
def c1_demo_good : Entry :=
  ⟨.automerge (.valid ⟨2, 1, [], [.set_root (.prim (.str "ok"))]⟩)⟩

/-- Demo entry whose change declares a dependency absent from any history it
appears first in: it decodes but fails to merge. -/
def c1_demo_dep_missing : Entry := ⟨.automerge (.valid ⟨5, 1, [⟨9, 9⟩], []⟩)⟩

/-- Demo change initializing a document without a `comments` key. -/
def c2_demo_change : Change :=
  ⟨100, 1, [], [.set_root (.map [("title", .prim (.str "t"))])]⟩

/-- Demo store holding one object whose document lacks the `comments`
list. -/
def c2_demo_store : ObjectStore := [⟨1, [⟨.automerge (.valid c2_demo_change)⟩]⟩]

/-- Demo root change: initializes an empty `comments` list. -/
def c3_demo_c1 : Change := ⟨100, 1, [], [.set_root (.map [("comments", .list [])])]⟩

/-- Demo follow-up change by the same author, depending on the root
change. -/
def c3_demo_c2 : Change := ⟨100, 2, [⟨100, 1⟩], []⟩

/-- Demo two-entry chain history: the root change and its dependent. -/
def c3_demo_history : History :=
  [⟨.automerge (.valid c3_demo_c1)⟩, ⟨.automerge (.valid c3_demo_c2)⟩]

/-- Demo store holding the two-entry chain object. -/
def c3_demo_store : ObjectStore := [⟨1, c3_demo_history⟩]

/-- The backend the demo chain evaluates to. -/
def c3_demo_b : Backend :=
  ⟨[c3_demo_c1, c3_demo_c2], .map [("comments", .list [])]⟩

/-- The change the add-comment arm authors against the demo chain: its
dependencies are only the chain's head, not the root change. -/
def c3_demo_newch : Change :=
  ⟨3, 1, [⟨100, 2⟩],
   [.insert "comments" 0
     (.map [("author", .prim (.str "urn:me")), ("comment", .prim (.str "hi"))])]⟩

/-- Demo change whose only declared dependency is absent from the empty
backend. -/
def c5_demo_change : Change := ⟨4, 1, [⟨9, 9⟩], []⟩

/-- Demo object evaluating to a valid issue titled "Bug one". -/
def c7_demo_good1 : Object :=
  ⟨1, [⟨.automerge (.valid ⟨11, 1, [], [.set_root (initial_value "urn:a" "Bug one" "d1")]⟩)⟩]⟩

/-- Demo object whose single history entry is corrupted: it evaluates to the
empty document, which fails to deserialize into the issue view. -/
def c7_demo_bad : Object := ⟨2, [⟨.automerge (.malformed 3)⟩]⟩

/-- Demo object evaluating to a valid issue titled "Bug two". -/
def c7_demo_good2 : Object :=
  ⟨3, [⟨.automerge (.valid ⟨12, 1, [], [.set_root (initial_value "urn:b" "Bug two" "d2")]⟩)⟩]⟩

/-- Demo listing input: three objects, the middle one corrupted. -/
def c7_demo_objs : List Object := [c7_demo_good1, c7_demo_bad, c7_demo_good2]

/-- Demo change for idempotence: sets the root to null. -/
def c8_demo_c : Change := ⟨1, 1, [], [.set_root (.prim .null)]⟩

/-- The backend obtained by applying the demo change once to a fresh
backend. -/
def c8_demo_b1 : Backend := ⟨[c8_demo_c], .prim .null⟩

/-- Demo root change initializing a full issue document. -/
def c9_demo_change : Change := ⟨100, 1, [], [.set_root (initial_value "urn:a" "T" "D")]⟩

/-- Demo store for the add-comment trace claims. -/
def c9_demo_store : ObjectStore := [⟨1, [⟨.automerge (.valid c9_demo_change)⟩]⟩]

/-- The fully-constructed change the demo add-comment run commits. -/
def c9_demo_newch : Change :=
  ⟨3, 1, [⟨100, 1⟩],
   [.insert "comments" 0
     (.map [("author", .prim (.str "urn:me")), ("comment", .prim (.str "hi"))])]⟩

theorem apply_changes_singleton (b : Backend) (c : Change) :
    apply_changes b [c] = apply_one b c := by
  unfold apply_changes
  cases h : apply_one b c <;> simp [List.foldlM, h]

theorem apply_one_missing (b : Backend) (c : Change)
    (h : ¬ ∀ d ∈ c.deps, d ∈ b.ids) :
    apply_one b c = .error .MissingDependency := by
  unfold apply_one
  rw [dif_neg h]

theorem apply_one_dup (b : Backend) (c : Change)
    (h1 : ∀ d ∈ c.deps, d ∈ b.ids) (h2 : c.cid ∈ b.ids) :
    apply_one b c = .ok b := by
  unfold apply_one
  rw [dif_pos h1, dif_pos h2]

theorem apply_one_ok_inv (b b2 : Backend) (c : Change)
    (h : apply_one b c = .ok b2) :
    (∀ d ∈ c.deps, d ∈ b.ids) ∧
      ((c.cid ∈ b.ids ∧ b2 = b) ∨
        (c.cid ∉ b.ids ∧ b2.changes = b.changes ++ [c])) := by
  unfold apply_one at h
  by_cases h1 : ∀ d ∈ c.deps, d ∈ b.ids
  · rw [dif_pos h1] at h
    refine ⟨h1, ?_⟩
    by_cases h2 : c.cid ∈ b.ids
    · rw [dif_pos h2] at h
      exact Or.inl ⟨h2, (Except.ok.inj h).symm⟩
    · rw [dif_neg h2] at h
      refine Or.inr ⟨h2, ?_⟩
      cases hf : List.foldlM apply_op b.doc c.ops with
      | some d2 => rw [hf] at h; rw [← Except.ok.inj h]
      | none => rw [hf] at h; exact absurd h (by simp)
  · rw [dif_neg h1] at h
    exact absurd h (by simp)

/-- C5: for every backend state and every change with a declared dependency
absent from the op-set, apply_changes rejects the change with
MergeError::MissingDependency, and the backend kept after the rejected
attempt (the `.ok()` recovery) has an unchanged materialized value tree. -/
theorem c5_missing_dependency_rejected (b : Backend) (c : Change) (d : ChangeId)
    (hd : d ∈ c.deps) (habs : d ∉ b.ids) :
    apply_changes b [c] = .error .MissingDependency ∧
      (try_apply b [c]).doc = b.doc := by
  have hmiss : apply_one b c = .error .MissingDependency :=
    apply_one_missing b c (fun hall => habs (hall d hd))
  have h1 : apply_changes b [c] = .error .MissingDependency := by
    rw [apply_changes_singleton, hmiss]
  exact ⟨h1, by unfold try_apply; rw [h1]⟩

theorem c5_witness :
    (⟨9, 9⟩ : ChangeId) ∈ c5_demo_change.deps ∧
      apply_changes Backend.new [c5_demo_change] = .error .MissingDependency :=
  ⟨by decide,
   (c5_missing_dependency_rejected Backend.new c5_demo_change ⟨9, 9⟩
      (by decide) (by decide)).1⟩

/-- C8: applying the same change to a backend a second time is a no-op — the
second application succeeds and returns the backend (hence the materialized
value tree) produced by the first application, unchanged. -/
theorem c8_idempotent_reapplication (b b1 : Backend) (c : Change)
    (h : apply_changes b [c] = .ok b1) :
    apply_changes b1 [c] = .ok b1 := by
  rw [apply_changes_singleton] at h ⊢
  obtain ⟨hdeps, hcase⟩ := apply_one_ok_inv b b1 c h
  rcases hcase with ⟨hdup, rfl⟩ | ⟨hfresh, hch⟩
  · exact apply_one_dup b1 c hdeps hdup
  · have hids : b1.ids = b.ids ++ [c.cid] := by
      unfold Backend.ids
      rw [hch, List.map_append]
      rfl
    apply apply_one_dup
    · intro d hd
      rw [hids]
      exact List.mem_append_left _ (hdeps d hd)
    · rw [hids]
      exact List.mem_append_right _ (List.mem_singleton_self _)

theorem c8_witness :
    apply_changes c8_demo_b1 [c8_demo_c] = .ok c8_demo_b1 :=
  c8_idempotent_reapplication Backend.new c8_demo_b1 c8_demo_c (by rfl)

/-- C6: a retrieve invocation with an object identifier unknown to storage
yields the user-visible "No object found" outcome as a valid None result —
the command completes normally, with no error and no panic. -/
theorem c6_unknown_object_not_error (store : ObjectStore) (a : Actor) (oid : ObjectId)
    (h : store_retrieve store oid = none) :
    retrieve_run store a oid = .completed [.out "No object found"] := by
  unfold retrieve_run
  rw [h]

theorem c6_witness :
    store_retrieve ([] : ObjectStore) 5 = none ∧
      retrieve_run ([] : ObjectStore) 0 5 = .completed [.out "No object found"] :=
  ⟨rfl, c6_unknown_object_not_error [] 0 5 rfl⟩

/-- C4: the initial history handed to storage by create is a single entry
whose one change has no dependencies and sets the document root, in one
operation, to the map holding the given title, description, the author urn
and an empty comments list; evaluating that history materializes exactly that
value. -/
theorem c4_create_initial_history (a a2 : Actor) (urn t d : String) :
    (initial_history a urn t d).length = 1 ∧
    history_root_change (initial_history a urn t d) =
      some ⟨a, 1, [], [Op.set_root (initial_value urn t d)]⟩ ∧
    (evaluate_history a2 (initial_history a urn t d)).map (fun fb => fb.1.doc) =
      .ok (initial_value urn t d) := by
  refine ⟨rfl, rfl, rfl⟩

/-- C2 (code bug): on a document without the expected `comments` list, the
add-comment arm does not surface a structured AuthorError::InvalidPath — the
edit closure prints "invalid issue document" and records no operations, the
authoring call therefore yields no change, and the arm's unwrap of that
absent change panics.  No entry is committed. -/
theorem c2_invalid_document_panics_without_commit :
    add_comment_run c2_demo_store 3 "urn:me" 1 "hi" =
      .panicked [.log "loading entry", .log "invalid issue document"] ∧
    (add_comment_run c2_demo_store 3 "urn:me" 1 "hi").trace.filter Step.is_commit = [] := by
  exact ⟨rfl, rfl⟩

theorem step_entry_fst_log_indep (b : Backend) (l1 l2 : List Step) (e : Entry) :
    (step_entry (b, l1) e).1 = (step_entry (b, l2) e).1 := by
  rcases e with ⟨⟨data⟩⟩
  cases hd : decode_change data <;> simp [step_entry, hd]

theorem eval_fold_fst_log_indep (l : List Entry) :
    ∀ (b : Backend) (l1 l2 : List Step),
      (List.foldl step_entry (b, l1) l).1 = (List.foldl step_entry (b, l2) l).1 := by
  induction l with
  | nil => intro b l1 l2; rfl
  | cons e rest ih =>
    intro b l1 l2
    simp only [List.foldl_cons]
    have hb := step_entry_fst_log_indep b l1 l2 e
    have h := ih (step_entry (b, l1) e).1 (step_entry (b, l1) e).2 (step_entry (b, l2) e).2
    calc (List.foldl step_entry (step_entry (b, l1) e) rest).1
        = (List.foldl step_entry ((step_entry (b, l1) e).1, (step_entry (b, l2) e).2) rest).1 := h
      _ = (List.foldl step_entry (step_entry (b, l2) e) rest).1 := by rw [hb]

theorem step_entry_skip (b : Backend) (logs : List Step) (e : Entry)
    (hf : entry_fails b e = true) :
    (step_entry (b, logs) e).1 = b := by
  rcases e with ⟨⟨data⟩⟩
  cases hd : decode_change data with
  | error err => simp [step_entry, hd]
  | ok c =>
    simp only [entry_fails, hd] at hf
    cases ha : apply_changes b [c] with
    | error err => simp [step_entry, hd, try_apply, ha]
    | ok b2 => rw [ha] at hf; exact absurd hf (by simp)

/-- C1 (amended): during history evaluation an entry whose contents fail to
decode, or whose decoded change fails to merge, is skipped and evaluation of
all remaining entries continues to the same converged frontend/backend pair;
a decode failure is logged, but a merge failure is discarded silently — the
only diagnostics emitted for a failing entry are the unconditional
"loading entry" line plus, exactly when decoding failed, the
"Error loading a change" line. -/
theorem c1_failing_entry_skipped (a : Actor) (pre post : List Entry) (e : Entry)
    (hf : entry_fails (eval_fold pre).1 e = true) :
    evaluate_history a (pre ++ e :: post) = evaluate_history a (pre ++ post) ∧
    (step_entry (eval_fold pre) e).2 =
      (eval_fold pre).2 ++ [.log "loading entry"] ++
        (if decode_fails e then [.log "Error loading a change"] else []) := by
  have hskip : (step_entry (eval_fold pre) e).1 = (eval_fold pre).1 :=
    step_entry_skip (eval_fold pre).1 (eval_fold pre).2 e hf
  constructor
  · have hB : (eval_fold (pre ++ e :: post)).1 = (eval_fold (pre ++ post)).1 := by
      show (List.foldl step_entry (Backend.new, []) (pre ++ e :: post)).1
          = (List.foldl step_entry (Backend.new, []) (pre ++ post)).1
      rw [List.foldl_append, List.foldl_append, List.foldl_cons]
      have h1 : (List.foldl step_entry
            (step_entry (List.foldl step_entry (Backend.new, []) pre) e) post).1
          = (List.foldl step_entry
              ((step_entry (List.foldl step_entry (Backend.new, []) pre) e).1,
               (List.foldl step_entry (Backend.new, []) pre).2) post).1 :=
        eval_fold_fst_log_indep post _ _ _
      rw [h1]
      have hskip2 : (step_entry (List.foldl step_entry (Backend.new, []) pre) e).1
          = (List.foldl step_entry (Backend.new, []) pre).1 := hskip
      rw [hskip2]
    unfold evaluate_history
    rw [hB]
  · rcases e with ⟨⟨data⟩⟩
    cases hd : decode_change data with
    | ok c => simp [step_entry, hd, decode_fails]
    | error err => simp [step_entry, hd, decode_fails]

/-- C1 counterexample: a history whose single entry decodes but fails to
merge (its declared dependency is absent).  The entry is skipped — the
backend stays empty — yet the diagnostic log holds only the unconditional
"loading entry" line: the merge failure is not logged, contradicting the
claim that every decode-or-merge failure is logged. -/
theorem c1_counterexample_merge_failure_not_logged :
    entry_fails Backend.new c1_demo_dep_missing = true ∧
    (eval_fold [c1_demo_dep_missing]).1 = Backend.new ∧
    (eval_fold [c1_demo_dep_missing]).2 = [.log "loading entry"] := by
  exact ⟨rfl, rfl, rfl⟩

theorem c1_witness :
    entry_fails (eval_fold []).1 c1_demo_bad = true ∧
    evaluate_history 0 ([] ++ c1_demo_bad :: [c1_demo_good]) =
      evaluate_history 0 ([] ++ [c1_demo_good]) :=
  ⟨rfl, (c1_failing_entry_skipped 0 [] [c1_demo_good] c1_demo_bad rfl).1⟩

theorem list_rows_aux (a : Actor) (objs : List Object) :
    ∀ acc : List Row,
      List.foldl
        (fun acc o =>
          acc ++ [match issue_try_from a o.history with
                  | .ok issue => Row.entry o.id issue.title
                  | .error _ => Row.deser_failed o.id])
        acc objs
      = acc ++ objs.map (row_of a) := by
  induction objs with
  | nil => intro acc; simp
  | cons o rest ih =>
    intro acc
    simp only [List.foldl_cons, List.map_cons]
    rw [ih, List.append_assoc]
    rfl

/-- C7: the list command is best-effort and total — it emits exactly one row
per object, in order; an object whose evaluation or deserialization fails
contributes the per-object failure row carrying its id, and every other
object still contributes its (id, title) row; no failure aborts the
listing. -/
theorem c7_list_best_effort (a : Actor) (objs : List Object) :
    list_rows a objs = objs.map (row_of a) ∧
    (list_rows a objs).length = objs.length ∧
    (∀ o ∈ objs, ∀ err, issue_try_from a o.history = .error err →
      row_of a o = .deser_failed o.id) ∧
    (∀ o ∈ objs, ∀ issue, issue_try_from a o.history = .ok issue →
      row_of a o = .entry o.id issue.title) := by
  have h1 : list_rows a objs = objs.map (row_of a) := by
    unfold list_rows
    exact list_rows_aux a objs []
  refine ⟨h1, ?_, ?_, ?_⟩
  · rw [h1, List.length_map]
  · intro o _ err herr
    unfold row_of
    rw [herr]
  · intro o _ issue hok
    unfold row_of
    rw [hok]

theorem c7_witness :
    list_rows 0 c7_demo_objs =
      [.entry 1 "Bug one", .deser_failed 2, .entry 3 "Bug two"] ∧
    row_of 0 c7_demo_bad = .deser_failed 2 := by
  have h := c7_list_best_effort 0 c7_demo_objs
  constructor
  · rw [h.1]; rfl
  · exact h.2.2.1 c7_demo_bad (List.Mem.tail _ (List.Mem.head _))
      "failed to deserialize" rfl

theorem apply_trace_no_commit (store : ObjectStore) (p : List Step)
    (h : ∀ s ∈ p, s.is_commit = false) : apply_trace store p = store := by
  induction p generalizing store with
  | nil => rfl
  | cons s rest ih =>
    cases s with
    | commit oid e => exact absurd (h _ (List.Mem.head _)) (by simp [Step.is_commit])
    | log s2 => exact ih store (fun t ht => h t (List.Mem.tail _ ht))
    | out s2 => exact ih store (fun t ht => h t (List.Mem.tail _ ht))
    | out_doc v => exact ih store (fun t ht => h t (List.Mem.tail _ ht))

theorem step_entry_logs_preserve (b : Backend) (logs : List Step) (e : Entry)
    (h : ∀ s ∈ logs, s.is_commit = false) :
    ∀ s ∈ (step_entry (b, logs) e).2, s.is_commit = false := by
  rcases e with ⟨⟨data⟩⟩
  cases hd : decode_change data with
  | ok c =>
    simp only [step_entry, hd]
    intro s hs
    rcases List.mem_append.mp hs with h1 | h1
    · exact h s h1
    · rw [List.mem_singleton.mp h1]; rfl
  | error err =>
    simp only [step_entry, hd]
    intro s hs
    rcases List.mem_append.mp hs with h1 | h1
    · rcases List.mem_append.mp h1 with h2 | h2
      · exact h s h2
      · rw [List.mem_singleton.mp h2]; rfl
    · rw [List.mem_singleton.mp h1]; rfl

theorem eval_fold_logs_no_commit_aux (l : List Entry) :
    ∀ (b : Backend) (logs : List Step),
      (∀ s ∈ logs, s.is_commit = false) →
      ∀ s ∈ (List.foldl step_entry (b, logs) l).2, s.is_commit = false := by
  induction l with
  | nil => intro b logs hlogs s hs; exact hlogs s hs
  | cons e rest ih =>
    intro b logs hlogs s hs
    simp only [List.foldl_cons] at hs
    exact ih (step_entry (b, logs) e).1 (step_entry (b, logs) e).2
      (step_entry_logs_preserve b logs e hlogs) s hs

theorem eval_fold_logs_no_commit (h : History) :
    ∀ s ∈ (eval_fold h).2, s.is_commit = false :=
  eval_fold_logs_no_commit_aux h Backend.new [] (fun _ hs => absurd hs (List.not_mem_nil _))

/-- C9: in the add-comment arm no entry is committed to storage until the
full new change has been constructed.  Replaying any commit-free prefix of
the arm's effect trace leaves the store unchanged (a process interrupted
before the storage update persists nothing), and every commit the trace does
contain carries exactly the encoding of the completely authored change. -/
theorem c9_no_commit_before_full_change (store store0 : ObjectStore) (a : Actor)
    (urn : String) (oid : ObjectId) (cmt : String) :
    (∀ p q, (add_comment_run store a urn oid cmt).trace = p ++ q →
        (∀ s ∈ p, s.is_commit = false) → apply_trace store0 p = store0) ∧
    (∀ s ∈ (add_comment_run store a urn oid cmt).trace, s.is_commit = true →
        ∃ ch, add_comment_change store a urn oid cmt = some ch ∧
          s = .commit oid ⟨.automerge (encode_change ch)⟩) := by
  constructor
  · intro p q _ hp
    exact apply_trace_no_commit store0 p hp
  · intro s hs hc
    unfold add_comment_run at hs
    unfold add_comment_change
    cases hr : store_retrieve store oid with
    | none =>
      simp only [hr, RunResult.trace] at hs
      rw [List.mem_singleton.mp hs] at hc
      exact absurd hc (by simp [Step.is_commit])
    | some obj =>
      simp only [hr] at hs ⊢
      cases he : evaluate_history a obj.history with
      | error err =>
        simp only [he, RunResult.trace] at hs
        rcases List.mem_append.mp hs with h1 | h1
        · rw [eval_fold_logs_no_commit obj.history s h1] at hc
          exact absurd hc (by simp)
        · rw [List.mem_singleton.mp h1] at hc
          exact absurd hc (by simp [Step.is_commit])
      | ok fb =>
        obtain ⟨f, b⟩ := fb
        simp only [he, get_patch, apply_patch] at hs ⊢
        cases hch : Frontend.change { f with doc := b.doc, front := heads b.changes }
            (comment_edit urn cmt) with
        | mk f3 och =>
          simp only [hch] at hs ⊢
          cases och with
          | none =>
            simp only [RunResult.trace] at hs
            rcases List.mem_append.mp hs with h1 | h1
            · rw [eval_fold_logs_no_commit obj.history s h1] at hc
              exact absurd hc (by simp)
            · rw [List.mem_singleton.mp h1] at hc
              exact absurd hc (by simp [Step.is_commit])
          | some ch =>
            cases ha : apply_changes b [ch] with
            | error err =>
              simp only [ha, RunResult.trace] at hs
              rw [eval_fold_logs_no_commit obj.history s hs] at hc
              exact absurd hc (by simp)
            | ok b2 =>
              simp only [ha, RunResult.trace] at hs
              refine ⟨ch, rfl, ?_⟩
              rcases List.mem_append.mp hs with h1 | h1
              · rw [eval_fold_logs_no_commit obj.history s h1] at hc
                exact absurd hc (by simp)
              · rcases List.mem_cons.mp h1 with h2 | h2
                · exact h2
                · rcases List.mem_cons.mp h2 with h3 | h3
                  · rw [h3] at hc
                    exact absurd hc (by simp [Step.is_commit])
                  · exact absurd h3 (List.not_mem_nil s)

theorem c9_witness :
    apply_trace c9_demo_store [Step.log "loading entry"] = c9_demo_store ∧
    ∃ ch, add_comment_change c9_demo_store 3 "urn:me" 1 "hi" = some ch ∧
      Step.commit 1 ⟨.automerge (encode_change c9_demo_newch)⟩ =
        .commit 1 ⟨.automerge (encode_change ch)⟩ := by
  have h := c9_no_commit_before_full_change c9_demo_store c9_demo_store 3 "urn:me" 1 "hi"
  constructor
  · exact h.1 [Step.log "loading entry"]
      [Step.commit 1 ⟨.automerge (encode_change c9_demo_newch)⟩, Step.out "Update complete"]
      rfl
      (by intro s hs; rw [List.mem_singleton.mp hs]; rfl)
  · refine h.2 (Step.commit 1 ⟨.automerge (encode_change c9_demo_newch)⟩) ?_ rfl
    have ht : (add_comment_run c9_demo_store 3 "urn:me" 1 "hi").trace =
        [Step.log "loading entry",
         Step.commit 1 ⟨.automerge (encode_change c9_demo_newch)⟩,
         Step.out "Update complete"] := rfl
    rw [ht]
    exact List.Mem.tail _ (List.Mem.head _)

theorem mem_heads_iff (cs : List Change) (x : ChangeId) :
    x ∈ heads cs ↔ ∃ c, c ∈ cs ∧ c.cid = x ∧ ∀ d ∈ cs, x ∉ d.deps := by
  unfold heads
  rw [List.mem_map]
  constructor
  · rintro ⟨c, hc, rfl⟩
    rw [List.mem_filter] at hc
    refine ⟨c, hc.1, rfl, ?_⟩
    intro d hd
    exact of_decide_eq_true (List.all_eq_true.mp hc.2 d hd)
  · rintro ⟨c, hc, rfl, hnd⟩
    refine ⟨c, ?_, rfl⟩
    rw [List.mem_filter]
    exact ⟨hc, List.all_eq_true.mpr (fun d hd => decide_eq_true (hnd d hd))⟩

theorem heads_sub_ids (cs : List Change) (x : ChangeId) (hx : x ∈ heads cs) :
    x ∈ cs.map Change.cid := by
  rw [mem_heads_iff] at hx
  obtain ⟨c, hc, rfl, _⟩ := hx
  exact List.mem_map_of_mem Change.cid hc

theorem mem_heads_congr (l1 l2 : List Change) (hmem : ∀ c, c ∈ l1 ↔ c ∈ l2)
    (x : ChangeId) : x ∈ heads l1 ↔ x ∈ heads l2 := by
  rw [mem_heads_iff, mem_heads_iff]
  constructor
  · rintro ⟨c, hc, rfl, hnd⟩
    exact ⟨c, (hmem c).mp hc, rfl, fun d hd => hnd d ((hmem d).mpr hd)⟩
  · rintro ⟨c, hc, rfl, hnd⟩
    exact ⟨c, (hmem c).mpr hc, rfl, fun d hd => hnd d ((hmem d).mp hd)⟩

theorem covered_mono (l1 l2 : List Change) (r1 r2 : List ChangeId)
    (hl : ∀ c, c ∈ l1 → c ∈ l2) (hr : ∀ x, x ∈ r1 → x ∈ r2) :
    ∀ x, Covered l1 r1 x → Covered l2 r2 x := by
  intro x h
  induction h with
  | base y hy => exact Covered.base y (hr y hy)
  | step c y hc hcov hdep ih => exact Covered.step c y (hl c hc) ih hdep

theorem wfr_deps_resolve (l : List Change) :
    WFr l → ∀ c ∈ l, ∀ x ∈ c.deps, ∃ c2 ∈ l, c2.cid = x := by
  induction l with
  | nil => intro _ c hc; exact absurd hc (List.not_mem_nil c)
  | cons a t ih =>
    intro hw c hc x hx
    obtain ⟨hdeps, hne, hwt⟩ := hw
    rcases List.mem_cons.mp hc with rfl | hct
    · obtain ⟨c2, hc2, he⟩ := hdeps x hx
      exact ⟨c2, List.mem_cons_of_mem _ hc2, he⟩
    · obtain ⟨c2, hc2, he⟩ := ih hwt c hct x hx
      exact ⟨c2, List.mem_cons_of_mem _ hc2, he⟩

theorem head_mem_heads (a : Change) (t : List Change) (hw : WFr (a :: t)) :
    a.cid ∈ heads (a :: t) := by
  obtain ⟨hdeps, hne, hwt⟩ := hw
  rw [mem_heads_iff]
  refine ⟨a, List.mem_cons_self a t, rfl, ?_⟩
  intro d hd hmem
  rcases List.mem_cons.mp hd with rfl | hdt
  · obtain ⟨c2, hc2, he⟩ := hdeps d.cid hmem
    exact hne c2 hc2 he
  · obtain ⟨c2, hc2, he⟩ := wfr_deps_resolve t hwt d hdt a.cid hmem
    exact hne c2 hc2 he

theorem heads_lift (a : Change) (t : List Change) (hw : WFr (a :: t)) :
    ∀ x ∈ heads t, Covered (a :: t) (heads (a :: t)) x := by
  intro x hx
  by_cases hxa : x ∈ a.deps
  · exact Covered.step a x (List.mem_cons_self a t)
      (Covered.base a.cid (head_mem_heads a t hw)) hxa
  · apply Covered.base
    rw [mem_heads_iff] at hx ⊢
    obtain ⟨c, hct, rfl, hnd⟩ := hx
    refine ⟨c, List.mem_cons_of_mem _ hct, rfl, ?_⟩
    intro d hd
    rcases List.mem_cons.mp hd with rfl | hdt
    · exact hxa
    · exact hnd d hdt

theorem covered_lift (a : Change) (t : List Change) (hw : WFr (a :: t)) :
    ∀ x, Covered t (heads t) x → Covered (a :: t) (heads (a :: t)) x := by
  intro x h
  induction h with
  | base y hy => exact heads_lift a t hw y hy
  | step c y hc hcov hdep ih =>
    exact Covered.step c y (List.mem_cons_of_mem _ hc) ih hdep

theorem covered_of_wfr (l : List Change) :
    WFr l → ∀ c ∈ l, Covered l (heads l) c.cid := by
  induction l with
  | nil => intro _ c hc; exact absurd hc (List.not_mem_nil c)
  | cons a t ih =>
    intro hw c hc
    rcases List.mem_cons.mp hc with rfl | hct
    · exact Covered.base c.cid (head_mem_heads c t hw)
    · obtain ⟨hdeps, hne, hwt⟩ := hw
      exact covered_lift a t ⟨hdeps, hne, hwt⟩ c.cid (ih hwt c hct)

theorem wfr_apply_one (b b2 : Backend) (c : Change)
    (h : apply_one b c = .ok b2) (hw : WFr b.changes.reverse) :
    WFr b2.changes.reverse := by
  obtain ⟨hdeps, hcase⟩ := apply_one_ok_inv b b2 c h
  rcases hcase with ⟨_, rfl⟩ | ⟨hfresh, hch⟩
  · exact hw
  · rw [hch, List.reverse_append]
    refine ⟨?_, ?_, hw⟩
    · intro d hd
      obtain ⟨c2, hc2, he⟩ := List.mem_map.mp (hdeps d hd)
      exact ⟨c2, List.mem_reverse.mpr hc2, he⟩
    · intro c2 hc2 hne
      apply hfresh
      unfold Backend.ids
      rw [← hne]
      exact List.mem_map_of_mem Change.cid (List.mem_reverse.mp hc2)

theorem wfr_try_apply (b : Backend) (c : Change) (hw : WFr b.changes.reverse) :
    WFr (try_apply b [c]).changes.reverse := by
  unfold try_apply
  cases h : apply_changes b [c] with
  | ok b2 =>
    rw [apply_changes_singleton] at h
    exact wfr_apply_one b b2 c h hw
  | error e => exact hw

theorem wfr_step_entry (b : Backend) (logs : List Step) (e : Entry)
    (hw : WFr b.changes.reverse) :
    WFr ((step_entry (b, logs) e).1).changes.reverse := by
  rcases e with ⟨⟨data⟩⟩
  cases hd : decode_change data with
  | ok c =>
    simp only [step_entry, hd]
    exact wfr_try_apply b c hw
  | error err =>
    simp only [step_entry, hd]
    exact hw

theorem wfr_eval_fold_aux (l : List Entry) :
    ∀ (b : Backend) (logs : List Step), WFr b.changes.reverse →
      WFr ((List.foldl step_entry (b, logs) l).1).changes.reverse := by
  induction l with
  | nil => intro b logs hw; exact hw
  | cons e rest ih =>
    intro b logs hw
    simp only [List.foldl_cons]
    exact ih (step_entry (b, logs) e).1 (step_entry (b, logs) e).2
      (wfr_step_entry b logs e hw)

theorem wfr_eval_fold (h : History) : WFr ((eval_fold h).1).changes.reverse :=
  wfr_eval_fold_aux h Backend.new [] trivial

theorem evaluate_history_eq (a : Actor) (h : History) :
    evaluate_history a h =
      .ok (⟨a, 0, (eval_fold h).1.doc, heads ((eval_fold h).1).changes⟩,
           (eval_fold h).1) := rfl

theorem observed_covered (a : Actor) (h : History) (f : Frontend) (b : Backend)
    (he : evaluate_history a h = .ok (f, b)) :
    ∀ c ∈ b.changes, Covered b.changes (heads b.changes) c.cid := by
  have h0 := (evaluate_history_eq a h).symm.trans he
  have h1 := Except.ok.inj h0
  have hb : b = (eval_fold h).1 := (congrArg Prod.snd h1).symm
  intro c hc
  have hw := wfr_eval_fold h
  rw [← hb] at hw
  have hcov := covered_of_wfr b.changes.reverse hw c (List.mem_reverse.mpr hc)
  exact covered_mono b.changes.reverse b.changes (heads b.changes.reverse)
    (heads b.changes)
    (fun d hd => List.mem_reverse.mp hd)
    (fun x hx => (mem_heads_congr b.changes.reverse b.changes
      (fun d => List.mem_reverse) x).mp hx)
    c.cid hcov

theorem apply_op_insert (m : List (String × Value)) (key : String) (xs : List Value)
    (v : Value) (i : Nat) (hget : map_get m key = some (.list xs))
    (hi : i ≤ xs.length) :
    apply_op (.map m) (.insert key i v) =
      some (.map (map_set m key (.list (insert_at xs i v)))) := by
  unfold apply_op
  simp only [hget]
  rw [if_pos hi]

/-- C3 (amended): an add-comment invocation on a well-formed document authors
exactly one change in a single authoring call — one insert, at the current
length of the `comments` list, of one map holding exactly the keys `author`
(the local identity urn) and `comment` (the supplied text) — and commits
exactly that change's encoding as one new entry.  The change's dependencies
are the causal frontier (the heads) of the evaluated history, and every
change already observed in the evaluated history is causally covered by those
dependencies through the transitive dependency closure. -/
theorem c3_add_comment_single_change (store : ObjectStore) (obj : Object)
    (a : Actor) (urn cmt : String) (oid : ObjectId) (f : Frontend) (b : Backend)
    (xs : List Value)
    (hret : store_retrieve store oid = some obj)
    (heval : evaluate_history a obj.history = .ok (f, b))
    (hcomments : value_at_comments f.doc = some (.list xs))
    (hfresh : (⟨a, 1⟩ : ChangeId) ∉ b.ids) :
    add_comment_run store a urn oid cmt =
      .completed ((eval_fold obj.history).2 ++
        [.commit oid ⟨.automerge (encode_change (c3_new_change a urn cmt b xs))⟩,
         .out "Update complete"]) ∧
    (c3_new_change a urn cmt b xs).deps = heads b.changes ∧
    (∀ c ∈ b.changes, Covered b.changes (c3_new_change a urn cmt b xs).deps c.cid) := by
  have h0 := (evaluate_history_eq a obj.history).symm.trans heval
  have h1 := Except.ok.inj h0
  have hf : f = ⟨a, 0, (eval_fold obj.history).1.doc,
      heads ((eval_fold obj.history).1).changes⟩ := (congrArg Prod.fst h1).symm
  have hb : b = (eval_fold obj.history).1 := (congrArg Prod.snd h1).symm
  have hfdoc : f.doc = b.doc := by rw [hf, hb]
  have hbc : value_at_comments b.doc = some (.list xs) := by
    rw [← hfdoc]
    exact hcomments
  obtain ⟨m, hm⟩ : ∃ m, b.doc = .map m := by
    cases hd : b.doc with
    | map m => exact ⟨m, rfl⟩
    | prim p =>
      rw [hd] at hbc
      exact absurd hbc (by simp [value_at_comments])
    | list l =>
      rw [hd] at hbc
      exact absurd hbc (by simp [value_at_comments])
  have hget : map_get m "comments" = some (.list xs) := by
    rw [hm] at hbc
    simpa [value_at_comments] using hbc
  have hdeps : ∀ d ∈ (c3_new_change a urn cmt b xs).deps, d ∈ b.ids := by
    intro d hd
    exact heads_sub_ids b.changes d hd
  have hdup : (c3_new_change a urn cmt b xs).cid ∉ b.ids := hfresh
  have hone : apply_one b (c3_new_change a urn cmt b xs) =
      .ok ⟨b.changes ++ [c3_new_change a urn cmt b xs],
           .map (map_set m "comments" (.list (insert_at xs xs.length
             (.map [("author", .prim (.str urn)),
                    ("comment", .prim (.str cmt))]))))⟩ := by
    unfold apply_one
    rw [dif_pos hdeps, dif_neg hdup]
    have hops : List.foldlM apply_op b.doc (c3_new_change a urn cmt b xs).ops =
        some (.map (map_set m "comments" (.list (insert_at xs xs.length
          (.map [("author", .prim (.str urn)),
                 ("comment", .prim (.str cmt))]))))) := by
      show List.foldlM apply_op b.doc
          [Op.insert "comments" xs.length
            (.map [("author", .prim (.str urn)), ("comment", .prim (.str cmt))])]
          = _
      simp only [List.foldlM, hm]
      rw [apply_op_insert m "comments" xs _ xs.length hget (Nat.le_refl _)]
      rfl
    rw [hops]
  have hac : apply_changes b [c3_new_change a urn cmt b xs] =
      .ok ⟨b.changes ++ [c3_new_change a urn cmt b xs],
           .map (map_set m "comments" (.list (insert_at xs xs.length
             (.map [("author", .prim (.str urn)),
                    ("comment", .prim (.str cmt))]))))⟩ := by
    rw [apply_changes_singleton]
    exact hone
  have hchange : Frontend.change
      { f with doc := b.doc, front := heads b.changes } (comment_edit urn cmt)
      = ({ f with doc := b.doc, front := heads b.changes, seq := f.seq + 1 },
         some ⟨f.actor, f.seq + 1, heads b.changes,
           [Op.insert "comments" xs.length
             (.map [("author", .prim (.str urn)),
                    ("comment", .prim (.str cmt))])]⟩) := by
    unfold Frontend.change
    have hedit : comment_edit urn cmt
        ({ f with doc := b.doc, front := heads b.changes } : Frontend).doc
        = [Op.insert "comments" xs.length
            (.map [("author", .prim (.str urn)), ("comment", .prim (.str cmt))])] := by
      show comment_edit urn cmt b.doc = _
      unfold comment_edit
      rw [hbc]
    rw [hedit]
  have hactor : f.actor = a := by rw [hf]
  have hseq : f.seq = 0 := by rw [hf]
  have hnc : (⟨f.actor, f.seq + 1, heads b.changes,
      [Op.insert "comments" xs.length
        (.map [("author", .prim (.str urn)),
               ("comment", .prim (.str cmt))])]⟩ : Change)
      = c3_new_change a urn cmt b xs := by
    rw [hactor, hseq]
    rfl
  refine ⟨?_, rfl, ?_⟩
  · unfold add_comment_run
    rw [hret]
    simp only [heval, get_patch, apply_patch, hchange, hnc, hac]
  · intro c hc
    exact observed_covered a obj.history f b heval c hc

/-- C3 counterexample: against a two-entry chain history the add-comment arm
authors a change whose dependency list is only the chain's head ⟨100, 2⟩; the
observed root change ⟨100, 1⟩ is absent from it, so the produced change's
dependencies do not literally include every change already observed. -/
theorem c3_counterexample_deps_not_all_observed :
    (⟨100, 1⟩ : ChangeId) ∈ ((eval_fold c3_demo_history).1).ids ∧
    add_comment_change c3_demo_store 3 "urn:me" 1 "hi" = some c3_demo_newch ∧
    (⟨100, 1⟩ : ChangeId) ∉ c3_demo_newch.deps := by
  refine ⟨by decide, rfl, by decide⟩

theorem c3_witness :
    add_comment_run c3_demo_store 3 "urn:me" 1 "hi" =
      .completed ((eval_fold c3_demo_history).2 ++
        [.commit 1 ⟨.automerge (encode_change (c3_new_change 3 "urn:me" "hi" c3_demo_b []))⟩,
         .out "Update complete"]) ∧
    (c3_new_change 3 "urn:me" "hi" c3_demo_b []).deps = heads c3_demo_b.changes := by
  have h := c3_add_comment_single_change c3_demo_store ⟨1, c3_demo_history⟩ 3
    "urn:me" "hi" 1 ⟨3, 0, .map [("comments", .list [])], [⟨100, 2⟩]⟩ c3_demo_b []
    rfl rfl rfl (by decide)
  exact ⟨h.1, h.2.1⟩
